import Mathlib

/-!
Verification of the `usdzip` command-line utility
(`pxr/usd/bin/usdzip/usdzip.py`): a shallow embedding of the
orchestration code (`_CreateUsdzPackage`, `_DumpContents`,
`_ListContents`, the relevant parts of `main`) together with a model of
the external archive Builder/Reader collaborators (`Usd.ZipFileWriter`,
`Usd.ZipFile`), which are not part of this repository and are therefore
modelled from the specification.
-/

namespace Usdzip

/-! ## String ordering (Python `list.sort()` on strings: lexicographic by
code point) and Python `str.endswith`, embedded over `String.data` so that
the kernel can evaluate them on concrete inputs. -/

/-- Lexicographic strict comparison of character lists by code point,
as Python compares strings. -/
def strListLt : List Char → List Char → Bool
  | [], [] => false
  | [], _ :: _ => true
  | _ :: _, [] => false
  | a :: as, b :: bs =>
    if a.toNat < b.toNat then true
    else if b.toNat < a.toNat then false
    else strListLt as bs

/-- Non-strict lexicographic comparison of strings (`a <= b` in Python). -/
def strLe (a b : String) : Bool := !(strListLt b.data a.data)

/-- Insert a string into a list, before the first element it compares
less-or-equal to (the stable insertion step of insertion sort). -/
def insertStr (x : String) : List String → List String
  | [] => [x]
  | y :: ys => if strLe x y then x :: y :: ys else y :: insertStr x ys

/-- Stable ascending sort of a list of strings, the behavior of Python's
`list.sort()` on the string lists produced by `glob.glob`. -/
def sortStrings : List String → List String
  | [] => []
  | x :: xs => insertStr x (sortStrings xs)

/-- Python `s.endswith(t)`, embedded as a suffix test on character lists. -/
def strEndsWith (s t : String) : Bool := t.data.isSuffixOf s.data

/-! ## Local filesystem model

`usdzip.py` consults the local filesystem through `os.path.isdir`,
`os.path.getsize`, `glob.glob(os.path.join(f, '*'))` and, inside the
writer, reads file contents.  The filesystem is modelled as a record of
those observations. -/

/-- Filesystem oracle: `isdir` is `os.path.isdir`, `getsize` is
`os.path.getsize`, `listdir f` is `glob.glob(os.path.join(f, '*'))`
(children of `f`, in arbitrary order), and `readable` says whether
reading the file's bytes succeeds (a read failure makes the writer's
`AddFile` raise). -/
structure FS where
  isdir : String → Bool
  getsize : String → Nat
  listdir : String → List String
  readable : String → Bool

/-! ## Error messages written to stderr (`_Err`) -/

/-- Message `"Skipping empty file '%s'." % f` from `_CreateUsdzPackage`. -/
def skipMsg (f : String) : String := "Skipping empty file '" ++ f ++ "'."

/-- Message `"Failed to add file '%s' to package. Discarding package." % f`
from `_CreateUsdzPackage`. -/
def failedAddMsg (f : String) : String :=
  "Failed to add file '" ++ f ++ "' to package. Discarding package."

/-- Message `"Can't find usdz file at path '%s'." % usdzFile` from `main`. -/
def cantFindMsg (p : String) : String :=
  "Can't find usdz file at path '" ++ p ++ "'."

/-- Message `"Failed to open usdz file at path '%s'." % usdzFile` from
`main`. -/
def failedOpenMsg (p : String) : String :=
  "Failed to open usdz file at path '" ++ p ++ "'."

/-! ## The `while filesToAdd:` expansion loop of `_CreateUsdzPackage`
(usdzip.py lines 62-84)

The loop pops the front of `filesToAdd`; a directory is expanded with
`glob.glob`, sub-directories are dropped unless `recurse`, the listing is
sorted and appended to the back of `filesToAdd`; a non-empty regular file
is appended to `fileList`; an empty file is skipped with a stderr
message.  The Python loop's termination depends on the filesystem, so the
embedding takes a fuel parameter and returns `none` when the fuel runs
out before the work list empties. -/

def expandLoop (fs : FS) (recurse : Bool) :
    Nat → List String → List String → List String →
    Option (List String × List String)
  | _, [], fileList, errs => some (fileList, errs)
  | 0, _ :: _, _, _ => none
  | fuel + 1, f :: rest, fileList, errs =>
    if fs.isdir f then
      let filesInDir := fs.listdir f
      let filesInDir :=
        if recurse then filesInDir
        else filesInDir.filter (fun g => !(fs.isdir g))
      let filesInDir := sortStrings filesInDir
      expandLoop fs recurse fuel (rest ++ filesInDir) fileList errs
    else if 0 < fs.getsize f then
      expandLoop fs recurse fuel rest (fileList ++ [f]) errs
    else
      expandLoop fs recurse fuel rest fileList (errs ++ [skipMsg f])

/-! ## The archive Builder (`Usd.ZipFileWriter`)

The Builder is an external collaborator of this repository (it lives in
the USD core, not in `usdzip.py`), so it is modelled from the
specification. -/

/-- Modelled from the spec: an `ArchiveEntry` records the archive-relative
name, the byte offset of the entry's stored data, the padding inserted
between the entry header and its content, the stored size and the
uncompressed size (equal, because the format stores without
compression). -/
structure ArchiveEntry where
  name : String
  dataOffset : Nat
  padding : Nat
  size : Nat
  uncompressedSize : Nat
deriving DecidableEq

/-- Modelled from the spec: the fixed size of the per-entry local file
header record preceding the entry name (the conventional zip local file
header is 30 bytes). -/
def localFileHeaderSize : Nat := 30

/-- Modelled from the spec: the fixed alignment boundary (64 bytes) that
every entry's data offset must satisfy. -/
def alignment : Nat := 64

/-- Modelled from the spec: the state of an in-progress archive build —
the number of bytes streamed to the output so far and the entries
recorded for the eventual central directory. -/
structure ZipWriterState where
  bytesWritten : Nat
  entries : List ArchiveEntry
deriving DecidableEq

/-- Modelled from the spec: `addFile` of the Builder.  It fails when the
file is unreadable or its name collides with an already-added entry;
otherwise it computes the offset at which the entry's content would start
(current position + fixed header + name length), inserts the minimal
padding (0 to alignment-1 bytes) making that offset a multiple of the
alignment boundary, writes the content verbatim and records the entry. -/
def AddFile (fs : FS) (st : ZipWriterState) (f : String) :
    Except String ZipWriterState :=
  if !(fs.readable f) then Except.error ("unreadable file: " ++ f)
  else if st.entries.any (fun e => e.name == f) then
    Except.error ("duplicate name: " ++ f)
  else
    let size := fs.getsize f
    let headerEnd := st.bytesWritten + localFileHeaderSize + f.length
    let padding := (alignment - headerEnd % alignment) % alignment
    let dataOffset := headerEnd + padding
    Except.ok
      { bytesWritten := dataOffset + size,
        entries := st.entries ++
          [{ name := f, dataOffset := dataOffset, padding := padding,
             size := size, uncompressedSize := size }] }

/-- The `for f in fileList:` loop of `_CreateUsdzPackage` (usdzip.py lines
91-99): each file is added in order; on the first `AddFile` failure the
message `failedAddMsg f` is written to stderr and the exception is
re-raised, carried here as `Except.error f`. -/
def addFilesLoop (fs : FS) :
    ZipWriterState → List String → Except String ZipWriterState × List String
  | st, [] => (Except.ok st, [])
  | st, f :: rest =>
    match AddFile fs st f with
    | Except.ok st2 => addFilesLoop fs st2 rest
    | Except.error _ => (Except.error f, [failedAddMsg f])

/-- Observable outcome of a call to `_CreateUsdzPackage`.
`returned = some b` means the function returned `b` normally;
`returned = none` means an exception propagated out of it.
`targetExists` and `archive` describe the file at the target path after
the `with` block has exited: modelled from the spec, a normal exit of the
`with` block finalizes the build (`Save`), leaving a complete archive of
the recorded entries at the target path, while an exceptional exit
discards it (`Discard`), leaving no file — exactly what the source
comments at lines 97-99 of usdzip.py state.  `checkedPaths` lists the
paths handed to the compliance checker. -/
structure PkgResult where
  returned : Option Bool
  targetExists : Bool
  archive : Option (List ArchiveEntry)
  errs : List String
  checkedPaths : List String
deriving DecidableEq

/-- Embedding of `_CreateUsdzPackage(usdzFile, filesToAdd, recurse,
checkCompliance, verbose)` (usdzip.py lines 60-100).  The external
collaborators appear as parameters: `fs` is the local filesystem and
`checker` is `_CheckCompliance` (true = compliant).  `fuel` bounds the
expansion loop; `none` is returned when it is exhausted.  `verbose` only
controls stdout chatter in the source and has no modelled effect. -/
def _CreateUsdzPackage (fs : FS) (checker : String → Bool) (fuel : Nat)
    (usdzFile : String) (filesToAdd : List String)
    (recurse checkCompliance verbose : Bool) : Option PkgResult :=
  match expandLoop fs recurse fuel filesToAdd [] [] with
  | none => none
  | some (fileList, errs0) =>
    let doCheck := checkCompliance && decide (0 < fileList.length)
    let checkedPaths := if doCheck then [fileList.headD ""] else []
    if doCheck && !(checker (fileList.headD "")) then
      -- `return False` inside the `with` block: a normal scope exit, so
      -- the writer finalizes (saves) an archive holding the entries added
      -- so far — none at this point.
      some { returned := some false, targetExists := true,
             archive := some [], errs := errs0, checkedPaths := checkedPaths }
    else
      match addFilesLoop fs { bytesWritten := 0, entries := [] } fileList with
      | (Except.ok st, errsA) =>
        some { returned := some true, targetExists := true,
               archive := some st.entries, errs := errs0 ++ errsA,
               checkedPaths := checkedPaths }
      | (Except.error _, errsA) =>
        some { returned := none, targetExists := false, archive := none,
               errs := errs0 ++ errsA, checkedPaths := checkedPaths }

/-! ## The archive Reader (`Usd.ZipFile`), also an external collaborator
modelled from the spec, and the reporting code of usdzip.py. -/

/-- Content of storage at a path: a valid archive with its entries, or
bytes that are not a valid archive. -/
inductive FileContent where
  | valid : List ArchiveEntry → FileContent
  | invalid : FileContent
deriving DecidableEq

/-- Modelled from the spec: `Usd.ZipFile.Open` returns a handle over the
parsed central directory, or a failure (`none`) when the file does not
exist or is not a valid archive; no partial parse is exposed. -/
def zipFileOpen (storage : String → Option FileContent) (p : String) :
    Option (List ArchiveEntry) :=
  match storage p with
  | some (FileContent.valid entries) => some entries
  | _ => none

/-- Modelled from the spec: `GetFileNames` — entry names in archive
(insertion) order. -/
def GetFileNames (zipFile : List ArchiveEntry) : List String :=
  zipFile.map (fun e => e.name)

/-- Modelled from the spec: `GetFileInfo` — exact-match lookup of an
entry by name. -/
def GetFileInfo (zipFile : List ArchiveEntry) (n : String) :
    Option ArchiveEntry :=
  zipFile.find? (fun e => e.name == n)

/-- Python `"%10d" % n`: decimal rendering right-justified to width 10
with spaces (wider numbers are not truncated). -/
def pad10 (n : Nat) : String :=
  String.mk (List.replicate (10 - (toString n).length) ' ') ++ toString n

/-- One data row of `_DumpContents`:
`"%10d\t%10d\t%10d\t%s" % (dataOffset, size, uncompressedSize, fileName)`. -/
def dumpLine (fileInfo : ArchiveEntry) (fileName : String) : String :=
  pad10 fileInfo.dataOffset ++ "\t" ++ pad10 fileInfo.size ++ "\t" ++
    pad10 fileInfo.uncompressedSize ++ "\t" ++ fileName

/-- Embedding of `_DumpContents` (usdzip.py lines 102-114) as the list of
lines it prints: two header lines, one row per entry name in archive
order (each row from `GetFileInfo`), a rule line, and the total count
line `"%d files total" % len(fileNames)`. -/
def _DumpContents (zipFile : List ArchiveEntry) : List String :=
  ["    Offset\t      Comp\t    Uncomp\tName",
   "    ------\t      ----\t    ------\t----"]
  ++ (GetFileNames zipFile).map (fun fileName =>
        match GetFileInfo zipFile fileName with
        | some fileInfo => dumpLine fileInfo fileName
        | none => "")
  ++ ["----------", toString (GetFileNames zipFile).length ++ " files total"]

/-- Embedding of `_ListContents` (usdzip.py lines 116-119) as the list of
lines it prints: one entry name per line, in archive order. -/
def _ListContents (zipFile : List ArchiveEntry) : List String :=
  GetFileNames zipFile

/-- Outcome of the `--list`/`--dump` section of `main`: the stderr
messages, and the dump/list reports when they were produced. -/
structure InspectResult where
  errs : List String
  dumpOutput : Option (List String)
  listOutput : Option (List String)
deriving DecidableEq

/-- Embedding of the listing/dumping section of `main` (usdzip.py lines
234-245): when `--list` or `--dump` was requested, a missing file yields
`cantFindMsg`, an existing file that fails to open yields
`failedOpenMsg`, and a successful open produces the requested reports. -/
def listDumpSection (storage : String → Option FileContent)
    (usdzFile : String) (listContents dumpContents : Option String) :
    InspectResult :=
  if listContents.isSome || dumpContents.isSome then
    if (storage usdzFile).isSome then
      match zipFileOpen storage usdzFile with
      | some zipFile =>
        { errs := [],
          dumpOutput :=
            if dumpContents.isSome then some (_DumpContents zipFile) else none,
          listOutput :=
            if listContents.isSome then some (_ListContents zipFile) else none }
      | none =>
        { errs := [failedOpenMsg usdzFile], dumpOutput := none,
          listOutput := none }
    else
      { errs := [cantFindMsg usdzFile], dumpOutput := none,
        listOutput := none }
  else
    { errs := [], dumpOutput := none, listOutput := none }

/-- Command-line arguments of usdzip.py that the embedded part of `main`
consumes (the `--asset`/`--arkitAsset` modes delegate to external
collaborators and are outside the embedded core). -/
structure Args where
  usdzFile : String
  inputFiles : List String
  recurse : Bool
  checkCompliance : Bool
  listContents : Option String
  dumpContents : Option String

/-- Result of the embedded part of `main`: the adjusted target path (the
local variable `usdzFile` after the extension fix at usdzip.py lines
184-186), the package-creation outcome when input files were given, and
the outcome of the listing/dumping section. -/
structure MainResult where
  usdzFile : String
  pkg : Option (Option PkgResult)
  inspect : InspectResult

/-- Embedding of the input-files path through `main` (usdzip.py lines
173-245): fix the target extension, create the package when input files
were given, then run the listing/dumping section.  `storage` is the state
of storage consulted by the listing/dumping section. -/
def mainRun (fs : FS) (checker : String → Bool)
    (storage : String → Option FileContent) (fuel : Nat) (args : Args) :
    MainResult :=
  let usdzFile :=
    if strEndsWith args.usdzFile ".usdz" then args.usdzFile
    else args.usdzFile ++ ".usdz"
  let pkg :=
    if 0 < args.inputFiles.length then
      some (_CreateUsdzPackage fs checker fuel usdzFile args.inputFiles
        args.recurse args.checkCompliance false)
    else none
  let inspect :=
    listDumpSection storage usdzFile args.listContents args.dumpContents
  { usdzFile := usdzFile, pkg := pkg, inspect := inspect }

/-! ## Order-theoretic facts about the embedded string comparison and
about `sortStrings` -/

theorem strListLt_irrefl (as : List Char) : strListLt as as = false := by
  induction as with
  | nil => rfl
  | cons a as ih => simp [strListLt, ih]

theorem strListLt_trans : ∀ {as bs cs : List Char}, strListLt as bs = true →
    strListLt bs cs = true → strListLt as cs = true
  | [], [], _, h1, _ => by simp [strListLt] at h1
  | [], _ :: _, [], _, h2 => by simp [strListLt] at h2
  | [], _ :: _, _ :: _, _, _ => rfl
  | _ :: _, [], _, h1, _ => by simp [strListLt] at h1
  | _ :: _, _ :: _, [], _, h2 => by simp [strListLt] at h2
  | a :: as, b :: bs, c :: cs, h1, h2 => by
    simp only [strListLt] at h1 h2 ⊢
    rcases Nat.lt_trichotomy a.toNat b.toNat with hab | hab | hab <;>
      rcases Nat.lt_trichotomy b.toNat c.toNat with hbc | hbc | hbc
    · simp [show a.toNat < c.toNat by omega]
    · simp [show a.toNat < c.toNat by omega]
    · simp [show ¬ b.toNat < c.toNat by omega, hbc] at h2
    · simp [show a.toNat < c.toNat by omega]
    · simp only [show ¬ a.toNat < b.toNat by omega,
        show ¬ b.toNat < a.toNat by omega, if_false] at h1
      simp only [show ¬ b.toNat < c.toNat by omega,
        show ¬ c.toNat < b.toNat by omega, if_false] at h2
      simp only [show ¬ a.toNat < c.toNat by omega,
        show ¬ c.toNat < a.toNat by omega, if_false]
      exact strListLt_trans h1 h2
    · simp [show ¬ b.toNat < c.toNat by omega, hbc] at h2
    · simp [show ¬ a.toNat < b.toNat by omega, hab] at h1
    · simp [show ¬ a.toNat < b.toNat by omega, hab] at h1
    · simp [show ¬ a.toNat < b.toNat by omega, hab] at h1

theorem strListLt_trichotomy : ∀ as bs : List Char,
    strListLt as bs = true ∨ as = bs ∨ strListLt bs as = true
  | [], [] => Or.inr (Or.inl rfl)
  | [], _ :: _ => Or.inl rfl
  | _ :: _, [] => Or.inr (Or.inr rfl)
  | a :: as, b :: bs => by
    rcases Nat.lt_trichotomy a.toNat b.toNat with hab | hab | hab
    · exact Or.inl (by simp [strListLt, hab])
    · have hEq : a = b := Char.eq_of_val_eq (UInt32.ext hab)
      rcases strListLt_trichotomy as bs with h | h | h
      · exact Or.inl (by
          simp [strListLt, show ¬ a.toNat < b.toNat by omega,
            show ¬ b.toNat < a.toNat by omega, h])
      · exact Or.inr (Or.inl (by rw [hEq, h]))
      · exact Or.inr (Or.inr (by
          simp [strListLt, show ¬ a.toNat < b.toNat by omega,
            show ¬ b.toNat < a.toNat by omega, h]))
    · exact Or.inr (Or.inr (by simp [strListLt, hab]))

theorem strListLt_asymm {as bs : List Char} (h : strListLt as bs = true) :
    strListLt bs as = false := by
  cases hx : strListLt bs as
  · rfl
  · have h2 := strListLt_trans h hx
    rw [strListLt_irrefl] at h2
    exact Bool.noConfusion h2

theorem strLe_total (a b : String) : strLe a b = true ∨ strLe b a = true := by
  rcases strListLt_trichotomy a.data b.data with h | h | h
  · left
    simp [strLe, strListLt_asymm h]
  · left
    simp only [strLe, Bool.not_eq_true']
    rw [h, strListLt_irrefl]
  · right
    simp [strLe, strListLt_asymm h]

theorem strLe_trans {a b c : String} (h1 : strLe a b = true)
    (h2 : strLe b c = true) : strLe a c = true := by
  simp only [strLe, Bool.not_eq_true'] at h1 h2 ⊢
  cases hx : strListLt c.data a.data
  · rfl
  · rcases strListLt_trichotomy c.data b.data with h | h | h
    · rw [h2] at h
      exact Bool.noConfusion h
    · rw [h] at hx
      rw [h1] at hx
      exact Bool.noConfusion hx
    · have h3 := strListLt_trans h hx
      rw [h1] at h3
      exact Bool.noConfusion h3

theorem strLe_of_not_strLe {a b : String} (h : strLe a b = false) :
    strLe b a = true := by
  rcases strLe_total a b with h2 | h2
  · rw [h] at h2
    exact Bool.noConfusion h2
  · exact h2

theorem mem_insertStr (z x : String) :
    ∀ l : List String, z ∈ insertStr x l ↔ z = x ∨ z ∈ l
  | [] => by simp [insertStr]
  | y :: ys => by
    simp only [insertStr]
    split
    · simp only [List.mem_cons]
    · simp only [List.mem_cons, mem_insertStr z x ys]
      tauto

theorem pairwise_insertStr (x : String) : ∀ {l : List String},
    l.Pairwise (fun a b => strLe a b = true) →
    (insertStr x l).Pairwise (fun a b => strLe a b = true)
  | [], _ => by simp [insertStr]
  | y :: ys, h => by
    rw [List.pairwise_cons] at h
    obtain ⟨hy, hys⟩ := h
    simp only [insertStr]
    split
    · next hxy =>
      rw [List.pairwise_cons]
      refine ⟨?_, List.pairwise_cons.mpr ⟨hy, hys⟩⟩
      intro z hz
      rcases List.mem_cons.mp hz with rfl | hz2
      · exact hxy
      · exact strLe_trans hxy (hy z hz2)
    · next hxy =>
      rw [List.pairwise_cons]
      refine ⟨?_, pairwise_insertStr x hys⟩
      intro z hz
      rcases (mem_insertStr z x ys).mp hz with rfl | hz2
      · exact strLe_of_not_strLe (by simpa using hxy)
      · exact hy z hz2

theorem sortStrings_pairwise (l : List String) :
    (sortStrings l).Pairwise (fun a b => strLe a b = true) := by
  induction l with
  | nil => simp [sortStrings]
  | cons x xs ih => exact pairwise_insertStr x ih

theorem perm_insertStr (x : String) : ∀ l : List String,
    (insertStr x l).Perm (x :: l)
  | [] => List.Perm.refl _
  | y :: ys => by
    simp only [insertStr]
    split
    · exact List.Perm.refl _
    · exact ((perm_insertStr x ys).cons y).trans (List.Perm.swap x y ys)

theorem sortStrings_perm (l : List String) : (sortStrings l).Perm l := by
  induction l with
  | nil => exact List.Perm.refl _
  | cons x xs ih => exact (perm_insertStr x (sortStrings xs)).trans (ih.cons x)

/-! ## Structural facts about the expansion loop -/

theorem expandLoop_acc (fs : FS) (recurse : Bool) : ∀ (fuel : Nat)
    (q fl errs : List String),
    expandLoop fs recurse fuel q fl errs =
      (expandLoop fs recurse fuel q [] []).map
        (fun ab => (fl ++ ab.1, errs ++ ab.2)) := by
  intro fuel
  induction fuel with
  | zero =>
    intro q fl errs
    cases q with
    | nil => simp [expandLoop]
    | cons f rest => simp [expandLoop]
  | succ n ih =>
    intro q fl errs
    cases q with
    | nil => simp [expandLoop]
    | cons f rest =>
      by_cases hd : fs.isdir f = true
      · simp only [expandLoop, hd, if_true]
        exact ih _ _ _
      · by_cases hz : 0 < fs.getsize f
        · simp only [expandLoop, hd, hz, if_true, if_false, List.nil_append]
          rw [ih rest (fl ++ [f]) errs, ih rest [f] []]
          cases expandLoop fs recurse n rest [] [] <;>
            simp [List.append_assoc]
        · simp only [expandLoop, hd, hz, if_false, List.nil_append]
          rw [ih rest fl (errs ++ [skipMsg f]), ih rest [] [skipMsg f]]
          cases expandLoop fs recurse n rest [] [] <;>
            simp [List.append_assoc]

theorem expandLoop_mem_fileList {fs : FS} {recurse : Bool} {fuel : Nat}
    {q fl errs : List String} {out : List String × List String} {x : String}
    (h : expandLoop fs recurse fuel q fl errs = some out) (hx : x ∈ fl) :
    x ∈ out.1 := by
  rw [expandLoop_acc] at h
  cases hbase : expandLoop fs recurse fuel q [] [] with
  | none =>
    rw [hbase] at h
    exact Option.noConfusion h
  | some ab =>
    rw [hbase] at h
    simp only [Option.map_some'] at h
    injection h with h2
    subst h2
    simp [List.mem_append, hx]

theorem expandLoop_mem_errs {fs : FS} {recurse : Bool} {fuel : Nat}
    {q fl errs : List String} {out : List String × List String} {e : String}
    (h : expandLoop fs recurse fuel q fl errs = some out) (he : e ∈ errs) :
    e ∈ out.2 := by
  rw [expandLoop_acc] at h
  cases hbase : expandLoop fs recurse fuel q [] [] with
  | none =>
    rw [hbase] at h
    exact Option.noConfusion h
  | some ab =>
    rw [hbase] at h
    simp only [Option.map_some'] at h
    injection h with h2
    subst h2
    simp [List.mem_append, he]

theorem expandLoop_zero_not_mem (fs : FS) (recurse : Bool) (f : String)
    (hdir : fs.isdir f = false) (hsz : fs.getsize f = 0) : ∀ (fuel : Nat)
    (q fl errs : List String) (out : List String × List String),
    expandLoop fs recurse fuel q fl errs = some out → f ∉ fl → f ∉ out.1 := by
  intro fuel
  induction fuel with
  | zero =>
    intro q fl errs out h hfl
    cases q with
    | nil =>
      simp only [expandLoop, Option.some.injEq] at h
      subst h
      exact hfl
    | cons g rest => exact Option.noConfusion h
  | succ n ih =>
    intro q fl errs out h hfl
    cases q with
    | nil =>
      simp only [expandLoop, Option.some.injEq] at h
      subst h
      exact hfl
    | cons g rest =>
      by_cases hd : fs.isdir g = true
      · simp only [expandLoop, hd, if_true] at h
        exact ih _ _ _ _ h hfl
      · by_cases hz : 0 < fs.getsize g
        · simp only [expandLoop, hd, hz, if_true, if_false] at h
          refine ih _ _ _ _ h ?_
          intro hmem
          rcases List.mem_append.mp hmem with h2 | h2
          · exact hfl h2
          · rw [List.mem_singleton.mp h2] at hsz
            omega
        · simp only [expandLoop, hd, hz, if_false] at h
          exact ih _ _ _ _ h hfl

theorem expandLoop_zero_msg (fs : FS) (recurse : Bool) (f : String)
    (hdir : fs.isdir f = false) (hsz : fs.getsize f = 0) : ∀ (fuel : Nat)
    (q fl errs : List String) (out : List String × List String),
    f ∈ q → expandLoop fs recurse fuel q fl errs = some out →
    skipMsg f ∈ out.2 := by
  intro fuel
  induction fuel with
  | zero =>
    intro q fl errs out hq h
    cases q with
    | nil => exact absurd hq (List.not_mem_nil f)
    | cons g rest => exact Option.noConfusion h
  | succ n ih =>
    intro q fl errs out hq h
    cases q with
    | nil => exact absurd hq (List.not_mem_nil f)
    | cons g rest =>
      rcases List.mem_cons.mp hq with rfl | hq2
      · simp only [expandLoop, hdir, Bool.false_eq_true, if_false, hsz,
          Nat.lt_irrefl] at h
        exact expandLoop_mem_errs h (by simp [List.mem_append])
      · by_cases hd : fs.isdir g = true
        · simp only [expandLoop, hd, if_true] at h
          exact ih _ _ _ _ (List.mem_append_left _ hq2) h
        · by_cases hz : 0 < fs.getsize g
          · simp only [expandLoop, hd, hz, if_true, if_false] at h
            exact ih _ _ _ _ hq2 h
          · simp only [expandLoop, hd, hz, if_false] at h
            exact ih _ _ _ _ hq2 h

theorem expandLoop_pos_mem (fs : FS) (recurse : Bool) (g : String)
    (hdir : fs.isdir g = false) (hsz : 0 < fs.getsize g) : ∀ (fuel : Nat)
    (q fl errs : List String) (out : List String × List String),
    g ∈ q → expandLoop fs recurse fuel q fl errs = some out → g ∈ out.1 := by
  intro fuel
  induction fuel with
  | zero =>
    intro q fl errs out hq h
    cases q with
    | nil => exact absurd hq (List.not_mem_nil g)
    | cons g2 rest => exact Option.noConfusion h
  | succ n ih =>
    intro q fl errs out hq h
    cases q with
    | nil => exact absurd hq (List.not_mem_nil g)
    | cons g2 rest =>
      rcases List.mem_cons.mp hq with rfl | hq2
      · simp only [expandLoop, hdir, Bool.false_eq_true, if_false, hsz,
          if_true] at h
        exact expandLoop_mem_fileList h (by simp [List.mem_append])
      · by_cases hd : fs.isdir g2 = true
        · simp only [expandLoop, hd, if_true] at h
          exact ih _ _ _ _ (List.mem_append_left _ hq2) h
        · by_cases hz : 0 < fs.getsize g2
          · simp only [expandLoop, hd, hz, if_true, if_false] at h
            exact ih _ _ _ _ hq2 h
          · simp only [expandLoop, hd, hz, if_false] at h
            exact ih _ _ _ _ hq2 h

/-! ## Facts about the Builder model -/

/-- The alignment invariant of one archive entry: its data offset is a
multiple of 64, reached by a padding of 0 to 63 bytes inserted after the
header (which ends `padding` bytes before the data), and the padding is
minimal: no smaller padding would land the data on a multiple of 64. -/
def aligned64 (e : ArchiveEntry) : Prop :=
  e.dataOffset % 64 = 0 ∧ e.padding < 64 ∧ e.padding ≤ e.dataOffset ∧
    ∀ p, p < e.padding → (e.dataOffset - e.padding + p) % 64 ≠ 0

theorem AddFile_aligned {fs : FS} {st : ZipWriterState} {f : String}
    {st2 : ZipWriterState} (h : AddFile fs st f = Except.ok st2)
    (hprev : ∀ e ∈ st.entries, aligned64 e) :
    ∀ e ∈ st2.entries, aligned64 e := by
  simp only [AddFile, alignment, localFileHeaderSize] at h
  split at h
  · exact Except.noConfusion h
  · split at h
    · exact Except.noConfusion h
    · injection h with h2
      subst h2
      intro e he
      simp only [] at he
      rcases List.mem_append.mp he with h3 | h3
      · exact hprev e h3
      · rw [List.mem_singleton.mp h3]
        refine ⟨?_, ?_, ?_, ?_⟩
        · simp only [aligned64]
          omega
        · simp only [aligned64]
          omega
        · simp only [aligned64]
          omega
        · intro p hp
          simp only [aligned64] at hp ⊢
          omega

theorem addFilesLoop_aligned (fs : FS) : ∀ (l : List String)
    (st st2 : ZipWriterState) (errsA : List String),
    addFilesLoop fs st l = (Except.ok st2, errsA) →
    (∀ e ∈ st.entries, aligned64 e) → ∀ e ∈ st2.entries, aligned64 e := by
  intro l
  induction l with
  | nil =>
    intro st st2 errsA h hprev
    simp only [addFilesLoop, Prod.mk.injEq] at h
    obtain ⟨h1, _⟩ := h
    injection h1 with h2
    subst h2
    exact hprev
  | cons f rest ih =>
    intro st st2 errsA h hprev
    simp only [addFilesLoop] at h
    cases hA : AddFile fs st f with
    | ok stMid =>
      rw [hA] at h
      exact ih stMid st2 errsA h (AddFile_aligned hA hprev)
    | error e =>
      rw [hA] at h
      simp only [Prod.mk.injEq] at h
      exact Except.noConfusion h.1

theorem addFilesLoop_error_msg (fs : FS) : ∀ (l : List String)
    (st : ZipWriterState) (f : String) (errsA : List String),
    addFilesLoop fs st l = (Except.error f, errsA) →
    errsA = [failedAddMsg f] := by
  intro l
  induction l with
  | nil =>
    intro st f errsA h
    simp only [addFilesLoop, Prod.mk.injEq] at h
    exact Except.noConfusion h.1
  | cons g rest ih =>
    intro st f errsA h
    simp only [addFilesLoop] at h
    cases hA : AddFile fs st g with
    | ok stMid =>
      rw [hA] at h
      exact ih stMid f errsA h
    | error e =>
      rw [hA] at h
      simp only [Prod.mk.injEq] at h
      obtain ⟨h1, h2⟩ := h
      injection h1 with h3
      rw [← h2, h3]

/-- Skipping an empty file is not fatal: with a zero-size regular file at
the front of the input list, `_CreateUsdzPackage` produces exactly the
result it produces without that file, plus the skip message on stderr. -/
theorem createPkg_skip_cons (fs : FS) (checker : String → Bool) (fuel : Nat)
    (usdzFile : String) (files2 : List String) (recurse cc vb : Bool)
    (f : String) (hdir : fs.isdir f = false) (hsz : fs.getsize f = 0) :
    _CreateUsdzPackage fs checker (fuel + 1) usdzFile (f :: files2)
        recurse cc vb =
      (_CreateUsdzPackage fs checker fuel usdzFile files2 recurse cc vb).map
        (fun r => { r with errs := skipMsg f :: r.errs }) := by
  have hstep : expandLoop fs recurse (fuel + 1) (f :: files2) [] [] =
      (expandLoop fs recurse fuel files2 [] []).map
        (fun ab => (ab.1, skipMsg f :: ab.2)) := by
    simp only [expandLoop, hdir, Bool.false_eq_true, if_false, hsz,
      Nat.lt_irrefl, List.nil_append]
    rw [expandLoop_acc fs recurse fuel files2 [] [skipMsg f]]
    rfl
  simp only [_CreateUsdzPackage, hstep]
  cases expandLoop fs recurse fuel files2 [] [] with
  | none => rfl
  | some ab =>
    obtain ⟨fileList, errs0⟩ := ab
    simp only [Option.map_some']
    by_cases hB : (cc && decide (0 < fileList.length) &&
        !(checker (fileList.headD ""))) = true
    · rw [if_pos hB, if_pos hB]
      simp
    · rw [if_neg hB, if_neg hB]
      cases addFilesLoop fs { bytesWritten := 0, entries := [] } fileList with
      | mk res errsA =>
        cases res <;> simp

/-! ## Facts about the Reader lookup used by the dump report -/

theorem getFileInfo_self (e : ArchiveEntry) (tl : List ArchiveEntry) :
    GetFileInfo (e :: tl) e.name = some e := by
  simp [GetFileInfo, List.find?]

theorem getFileInfo_cons_ne (e : ArchiveEntry) (tl : List ArchiveEntry)
    (n : String) (h : ¬ e.name = n) :
    GetFileInfo (e :: tl) n = GetFileInfo tl n := by
  simp only [GetFileInfo, List.find?]
  rw [show (e.name == n) = false by simp [h]]

/-- With pairwise-distinct entry names, looking each listed name back up
in the archive recovers exactly the entries in archive order. -/
theorem dumpRows_eq (F : ArchiveEntry → String → String) :
    ∀ zf : List ArchiveEntry, (GetFileNames zf).Nodup →
    (GetFileNames zf).map (fun n =>
        match GetFileInfo zf n with
        | some fileInfo => F fileInfo n
        | none => "") =
      zf.map (fun e => F e e.name)
  | [], _ => rfl
  | e :: tl, hnd => by
    rw [show GetFileNames (e :: tl) = e.name :: GetFileNames tl from rfl] at hnd ⊢
    rw [List.nodup_cons] at hnd
    obtain ⟨hne, hnd2⟩ := hnd
    rw [List.map_cons]
    rw [getFileInfo_self e tl]
    have hcong : (GetFileNames tl).map (fun n =>
        match GetFileInfo (e :: tl) n with
        | some fileInfo => F fileInfo n
        | none => "") =
        (GetFileNames tl).map (fun n =>
          match GetFileInfo tl n with
          | some fileInfo => F fileInfo n
          | none => "") := by
      refine List.map_congr_left ?_
      intro n hn
      rw [getFileInfo_cons_ne e tl n ?_]
      intro hEq
      rw [hEq] at hne
      exact hne hn
    rw [hcong, dumpRows_eq F tl hnd2, List.map_cons]

/-! ## Concrete fixtures used by the claim witnesses -/

/-- Filesystem with one non-empty regular readable file everywhere. -/
def c1FS : FS where
  isdir := fun _ => false
  getsize := fun _ => 5
  listdir := fun _ => []
  readable := fun _ => true

/-- Filesystem where the file `bad.usd` exists but cannot be read. -/
def c2FS : FS where
  isdir := fun _ => false
  getsize := fun _ => 5
  listdir := fun _ => []
  readable := fun p => !(p == "bad.usd")

/-- Directory `d` holding the files `b.txt`, `a.txt` and the
sub-directory `sub`. -/
def c4FS : FS where
  isdir := fun p => p == "d" || p == "sub"
  getsize := fun p => if p == "d" || p == "sub" then 0 else 5
  listdir := fun p => if p == "d" then ["b.txt", "a.txt", "sub"] else []
  readable := fun _ => true

/-- Directory `d` holding the file `d/z.txt` and the sub-directory `d/a`,
which holds the file `d/a/b.txt`. -/
def c5FS : FS where
  isdir := fun p => p == "d" || p == "d/a"
  getsize := fun p => if p == "d" || p == "d/a" then 0 else 5
  listdir := fun p =>
    if p == "d" then ["d/z.txt", "d/a"]
    else if p == "d/a" then ["d/a/b.txt"] else []
  readable := fun _ => true

/-- Filesystem where `empty.usd` is a zero-byte regular file and every
other path is a 5-byte regular file. -/
def c6FS : FS where
  isdir := fun _ => false
  getsize := fun p => if p == "empty.usd" then 0 else 5
  listdir := fun _ => []
  readable := fun _ => true

/-- A two-entry archive used to exercise the dump report. -/
def demoArchive2 : List ArchiveEntry :=
  [{ name := "a.usd", dataOffset := 64, padding := 29, size := 10,
     uncompressedSize := 10 },
   { name := "b.png", dataOffset := 128, padding := 19, size := 5,
     uncompressedSize := 5 }]

/-! ## The claims -/

/-- Claim C1 (refuted by the code; the code contradicts its own
`--checkCompliance` help text, which promises "the package is not
created"): with compliance checking enabled, one valid non-empty input
file, and a compliance checker that fails after the writer has been
created, `_CreateUsdzPackage` exits the `with` block via a plain
`return False` — a normal scope exit — so the writer finalizes and saves
an (empty) package: after the call the target archive path EXISTS,
contrary to the claim that it must not. -/
theorem C1_compliance_failure_saves_package :
    _CreateUsdzPackage c1FS (fun _ => false) 1 "pkg.usdz" ["a.usd"]
        false true false =
      some { returned := some false, targetExists := true, archive := some [],
             errs := [], checkedPaths := ["a.usd"] } := by
  decide

/-- Claim C2: if adding any input file to the in-progress package fails,
the exception propagates out of `_CreateUsdzPackage`
(`returned = none`), the in-progress package is discarded, the target
archive file does not exist after the call, and the
"Failed to add file ... Discarding package." message is on stderr. -/
theorem C2_add_failure_discards_package (fs : FS) (checker : String → Bool)
    (fuel : Nat) (usdzFile : String) (filesToAdd : List String)
    (recurse cc vb : Bool) (fileList errs0 : List String) (f : String)
    (errsA : List String)
    (hExp : expandLoop fs recurse fuel filesToAdd [] [] =
      some (fileList, errs0))
    (hPass : cc = false ∨ fileList = [] ∨
      checker (fileList.headD "") = true)
    (hAdd : addFilesLoop fs { bytesWritten := 0, entries := [] } fileList =
      (Except.error f, errsA)) :
    ∃ r, _CreateUsdzPackage fs checker fuel usdzFile filesToAdd
        recurse cc vb = some r ∧
      r.returned = none ∧ r.targetExists = false ∧ r.archive = none ∧
      failedAddMsg f ∈ r.errs := by
  have hmsg := addFilesLoop_error_msg fs fileList _ f errsA hAdd
  subst hmsg
  have hcond : (cc && decide (0 < fileList.length) &&
      !(checker (fileList.headD ""))) = false := by
    rcases hPass with hc | hc | hc
    · simp [hc]
    · simp [hc]
    · have hc2 : checker (fileList.head?.getD "") = true := by
        simpa [List.headD_eq_head?_getD] using hc
      simp [hc2]
  simp only [_CreateUsdzPackage, hExp, hcond, Bool.false_eq_true, if_false,
    hAdd]
  refine ⟨_, rfl, rfl, rfl, rfl, ?_⟩
  simp

/-- Claim C2 witness: on a filesystem where `bad.usd` is unreadable,
packaging `["a.usd", "bad.usd"]` propagates the failure and leaves no
target file. -/
theorem C2_add_failure_discards_package_witness :
    ∃ r, _CreateUsdzPackage c2FS (fun _ => true) 2 "pkg.usdz"
        ["a.usd", "bad.usd"] false false false = some r ∧
      r.returned = none ∧ r.targetExists = false ∧ r.archive = none ∧
      failedAddMsg "bad.usd" ∈ r.errs :=
  C2_add_failure_discards_package c2FS (fun _ => true) 2 "pkg.usdz"
    ["a.usd", "bad.usd"] false false false ["a.usd", "bad.usd"] []
    "bad.usd" [failedAddMsg "bad.usd"] rfl (Or.inl rfl) rfl

/-- Claim C3: every entry of a successfully built archive has a data
offset that is a multiple of 64, reached by inserting a minimal padding
of 0 to 63 bytes between the entry's header and its content (no smaller
padding would reach a multiple of 64). -/
theorem C3_entries_aligned (fs : FS) (checker : String → Bool) (fuel : Nat)
    (usdzFile : String) (filesToAdd : List String) (recurse cc vb : Bool)
    (r : PkgResult) (entries : List ArchiveEntry)
    (hr : _CreateUsdzPackage fs checker fuel usdzFile filesToAdd
      recurse cc vb = some r)
    (ha : r.archive = some entries) :
    ∀ e ∈ entries, e.dataOffset % 64 = 0 ∧ e.padding < 64 ∧
      e.padding ≤ e.dataOffset ∧
      ∀ p, p < e.padding → (e.dataOffset - e.padding + p) % 64 ≠ 0 := by
  have key : ∀ e ∈ entries, aligned64 e := by
    rcases hE : expandLoop fs recurse fuel filesToAdd [] [] with _ | ab
    · simp only [_CreateUsdzPackage, hE] at hr
      exact Option.noConfusion hr
    · obtain ⟨fileList, errs0⟩ := ab
      simp only [_CreateUsdzPackage, hE] at hr
      split at hr
      · injection hr with h2
        subst h2
        simp only [] at ha
        injection ha with h3
        subst h3
        intro e he
        exact absurd he (List.not_mem_nil e)
      · cases hAdd : addFilesLoop fs { bytesWritten := 0, entries := [] }
            fileList with
        | mk res errsA =>
          rw [hAdd] at hr
          cases res with
          | ok st =>
            injection hr with h2
            subst h2
            simp only [] at ha
            injection ha with h3
            subst h3
            exact addFilesLoop_aligned fs fileList _ st errsA hAdd
              (by intro e he; exact absurd he (List.not_mem_nil e))
          | error g =>
            injection hr with h2
            subst h2
            simp only [] at ha
            exact Option.noConfusion ha
  intro e he
  exact key e he

/-- Claim C3 witness: building a package from the single 5-byte file
`a.usd` produces one entry at data offset 64 with padding 29, and the
alignment facts hold there. -/
theorem C3_entries_aligned_witness :
    (64 : Nat) % 64 = 0 ∧ (29 : Nat) < 64 ∧ (29 : Nat) ≤ 64 ∧
      ((64 : Nat) - 29 + 3) % 64 ≠ 0 := by
  have h := C3_entries_aligned c1FS (fun _ => true) 1 "pkg.usdz" ["a.usd"]
    false false false
    { returned := some true, targetExists := true,
      archive := some [{ name := "a.usd", dataOffset := 64, padding := 29,
                         size := 5, uncompressedSize := 5 }],
      errs := [], checkedPaths := [] }
    [{ name := "a.usd", dataOffset := 64, padding := 29, size := 5,
       uncompressedSize := 5 }]
    (by decide) rfl
    { name := "a.usd", dataOffset := 64, padding := 29, size := 5,
      uncompressedSize := 5 } (by decide)
  exact ⟨h.1, h.2.1, h.2.2.1, h.2.2.2 3 (by decide)⟩

/-- Claim C4: a directory given without the recurse flag has its listing
filtered of sub-directories and sorted lexicographically before the
result is appended to the work list (`sortStrings` really sorts: its
output is a pairwise-ordered permutation of its input); on a directory
holding `b.txt`, `a.txt` and a sub-directory, the resulting file list is
exactly `["a.txt", "b.txt"]`. -/
theorem C4_dir_no_recurse_sorted :
    (∀ (fs : FS) (fuel : Nat) (f : String)
        (rest fileList errs : List String), fs.isdir f = true →
      expandLoop fs false (fuel + 1) (f :: rest) fileList errs =
        expandLoop fs false fuel
          (rest ++ sortStrings
            ((fs.listdir f).filter (fun g => !(fs.isdir g))))
          fileList errs) ∧
    (∀ l : List String, (sortStrings l).Perm l ∧
      (sortStrings l).Pairwise (fun a b => strLe a b = true)) ∧
    expandLoop c4FS false 10 ["d"] [] [] = some (["a.txt", "b.txt"], []) := by
  refine ⟨?_, ?_, by decide⟩
  · intro fs fuel f rest fileList errs hd
    simp [expandLoop, hd]
  · intro l
    exact ⟨sortStrings_perm l, sortStrings_pairwise l⟩

/-- Claim C4 witness: instantiating the expansion step at the concrete
directory `d` and the sorting facts at its listing. -/
theorem C4_dir_no_recurse_sorted_witness :
    expandLoop c4FS false 10 ["d"] [] [] =
      expandLoop c4FS false 9
        (sortStrings ((c4FS.listdir "d").filter (fun g => !(c4FS.isdir g))))
        [] [] ∧
    (sortStrings ["b.txt", "a.txt"]).Perm ["b.txt", "a.txt"] := by
  constructor
  · have h := C4_dir_no_recurse_sorted.1 c4FS 9 "d" [] [] [] (by decide)
    simpa using h
  · exact (C4_dir_no_recurse_sorted.2.1 ["b.txt", "a.txt"]).1

/-- Claim C5: the directory walk pops the front of the work list and
appends each expanded directory's level-locally sorted contents to the
back (a breadth-first expansion); on a nested example the resulting
order `["d/z.txt", "d/a/b.txt"]` is the breadth-first order and is not
the globally sorted order over all descendant paths. -/
theorem C5_bfs_level_local_sort :
    (∀ (fs : FS) (fuel : Nat) (f : String)
        (rest fileList errs : List String), fs.isdir f = true →
      expandLoop fs true (fuel + 1) (f :: rest) fileList errs =
        expandLoop fs true fuel (rest ++ sortStrings (fs.listdir f))
          fileList errs) ∧
    expandLoop c5FS true 10 ["d"] [] [] =
      some (["d/z.txt", "d/a/b.txt"], []) ∧
    sortStrings ["d/z.txt", "d/a/b.txt"] ≠ ["d/z.txt", "d/a/b.txt"] := by
  refine ⟨?_, by decide, by decide⟩
  intro fs fuel f rest fileList errs hd
  simp [expandLoop, hd]

/-- Claim C5 witness: instantiating the recursive expansion step at the
concrete directory `d`. -/
theorem C5_bfs_level_local_sort_witness :
    expandLoop c5FS true 10 ["d"] [] [] =
      expandLoop c5FS true 9 (sortStrings (c5FS.listdir "d")) [] [] := by
  have h := C5_bfs_level_local_sort.1 c5FS 9 "d" [] [] [] (by decide)
  simpa using h

/-- Claim C6: a zero-size regular input file is skipped — excluded from
the file list handed to the writer, with the "Skipping empty file"
message on stderr — the skip is not fatal (prepending such a file changes
the outcome only by the extra stderr message), and every non-empty
regular input file is still added to the file list. -/
theorem C6_empty_file_skipped (fs : FS) (checker : String → Bool)
    (fuel : Nat) (usdzFile : String) (filesToAdd : List String)
    (recurse cc vb : Bool) (fileList errs0 : List String)
    (hExp : expandLoop fs recurse fuel filesToAdd [] [] =
      some (fileList, errs0)) :
    (∀ f ∈ filesToAdd, fs.isdir f = false → fs.getsize f = 0 →
      f ∉ fileList ∧ skipMsg f ∈ errs0 ∧
      ∀ r, _CreateUsdzPackage fs checker fuel usdzFile filesToAdd
          recurse cc vb = some r → skipMsg f ∈ r.errs) ∧
    (∀ g ∈ filesToAdd, fs.isdir g = false → 0 < fs.getsize g →
      g ∈ fileList) ∧
    (∀ f, fs.isdir f = false → fs.getsize f = 0 →
      _CreateUsdzPackage fs checker (fuel + 1) usdzFile (f :: filesToAdd)
          recurse cc vb =
        (_CreateUsdzPackage fs checker fuel usdzFile filesToAdd
            recurse cc vb).map
          (fun r => { r with errs := skipMsg f :: r.errs })) := by
  refine ⟨?_, ?_, ?_⟩
  · intro f hf hdir hsz
    refine ⟨?_, ?_, ?_⟩
    · exact expandLoop_zero_not_mem fs recurse f hdir hsz fuel filesToAdd
        [] [] (fileList, errs0) hExp (List.not_mem_nil f)
    · exact expandLoop_zero_msg fs recurse f hdir hsz fuel filesToAdd
        [] [] (fileList, errs0) hf hExp
    · intro r hr
      have hmem : skipMsg f ∈ errs0 :=
        expandLoop_zero_msg fs recurse f hdir hsz fuel filesToAdd
          [] [] (fileList, errs0) hf hExp
      simp only [_CreateUsdzPackage, hExp] at hr
      split at hr
      · injection hr with h2
        subst h2
        exact hmem
      · cases hAdd : addFilesLoop fs { bytesWritten := 0, entries := [] }
            fileList with
        | mk res errsA =>
          rw [hAdd] at hr
          cases res with
          | ok st =>
            injection hr with h2
            subst h2
            exact List.mem_append_left _ hmem
          | error g =>
            injection hr with h2
            subst h2
            exact List.mem_append_left _ hmem
  · intro g hg hdir hsz
    exact expandLoop_pos_mem fs recurse g hdir hsz fuel filesToAdd
      [] [] (fileList, errs0) hg hExp
  · intro f hdir hsz
    exact createPkg_skip_cons fs checker fuel usdzFile filesToAdd
      recurse cc vb f hdir hsz

/-- Claim C6 witness: with `empty.usd` a zero-byte file and `a.usd` a
5-byte file, `empty.usd` is skipped with the message, `a.usd` is added,
and prepending `empty.usd` only prepends the skip message. -/
theorem C6_empty_file_skipped_witness :
    ("empty.usd" ∉ (["a.usd"] : List String) ∧
      skipMsg "empty.usd" ∈ [skipMsg "empty.usd"] ∧
      ∀ r, _CreateUsdzPackage c6FS (fun _ => true) 2 "pkg.usdz"
          ["a.usd", "empty.usd"] false false false = some r →
        skipMsg "empty.usd" ∈ r.errs) ∧
    "a.usd" ∈ (["a.usd"] : List String) ∧
    _CreateUsdzPackage c6FS (fun _ => true) 3 "pkg.usdz"
        ("empty.usd" :: ["a.usd", "empty.usd"]) false false false =
      (_CreateUsdzPackage c6FS (fun _ => true) 2 "pkg.usdz"
          ["a.usd", "empty.usd"] false false false).map
        (fun r => { r with errs := skipMsg "empty.usd" :: r.errs }) := by
  have h := C6_empty_file_skipped c6FS (fun _ => true) 2 "pkg.usdz"
    ["a.usd", "empty.usd"] false false false ["a.usd"]
    [skipMsg "empty.usd"] (by decide)
  exact ⟨h.1 "empty.usd" (by decide) (by decide) (by decide),
    h.2.1 "a.usd" (by decide) (by decide) (by decide),
    h.2.2 "empty.usd" (by decide) (by decide)⟩

/-- Claim C7: when listing or dumping is requested, a non-existent
archive path yields the "Can't find" failure message with no list/dump
output, an existing file that is not a valid archive yields the "Failed
to open" failure message with no list/dump output, and the two failures
are distinguishable from each other and from a successful open of a
valid archive (which reports no error). -/
theorem C7_open_failures_distinguishable
    (storage : String → Option FileContent) (p : String)
    (listContents dumpContents : Option String)
    (hreq : (listContents.isSome || dumpContents.isSome) = true) :
    (storage p = none →
      listDumpSection storage p listContents dumpContents =
        { errs := [cantFindMsg p], dumpOutput := none, listOutput := none }) ∧
    (storage p = some FileContent.invalid →
      listDumpSection storage p listContents dumpContents =
        { errs := [failedOpenMsg p], dumpOutput := none,
          listOutput := none }) ∧
    (∀ entries, storage p = some (FileContent.valid entries) →
      (listDumpSection storage p listContents dumpContents).errs = []) ∧
    cantFindMsg p ≠ failedOpenMsg p := by
  refine ⟨?_, ?_, ?_, ?_⟩
  · intro h
    simp [listDumpSection, hreq, h]
  · intro h
    simp [listDumpSection, hreq, h, zipFileOpen]
  · intro entries h
    simp [listDumpSection, hreq, h, zipFileOpen]
  · intro h
    have h2 := congrArg String.length h
    simp only [cantFindMsg, failedOpenMsg, String.length_append] at h2
    have e1 : ("Can't find usdz file at path '" : String).length = 30 := by
      decide
    have e2 : ("Failed to open usdz file at path '" : String).length = 34 := by
      decide
    rw [e1, e2] at h2
    omega

/-- Claim C7 witness: the three open outcomes at concrete storages, and
the two failure messages differing at a concrete path. -/
theorem C7_open_failures_distinguishable_witness :
    listDumpSection (fun _ => none) "x.usdz" (some "-") none =
      { errs := [cantFindMsg "x.usdz"], dumpOutput := none,
        listOutput := none } ∧
    listDumpSection (fun _ => some FileContent.invalid) "x.usdz"
        (some "-") none =
      { errs := [failedOpenMsg "x.usdz"], dumpOutput := none,
        listOutput := none } ∧
    (listDumpSection (fun _ => some (FileContent.valid [])) "x.usdz"
        (some "-") none).errs = [] ∧
    cantFindMsg "x.usdz" ≠ failedOpenMsg "x.usdz" :=
  ⟨(C7_open_failures_distinguishable (fun _ => none) "x.usdz"
      (some "-") none rfl).1 rfl,
   (C7_open_failures_distinguishable (fun _ => some FileContent.invalid)
      "x.usdz" (some "-") none rfl).2.1 rfl,
   (C7_open_failures_distinguishable (fun _ => some (FileContent.valid []))
      "x.usdz" (some "-") none rfl).2.2.1 [] rfl,
   (C7_open_failures_distinguishable (fun _ => none) "x.usdz"
      (some "-") none rfl).2.2.2⟩

/-- Claim C8: the dump report is a fixed-width table — two header lines,
one row per entry in archive order with data offset, stored size,
uncompressed size and name, a rule line, and the total count line
`"<N> files total"`; for a two-entry archive that line reads
`"2 files total"`. -/
theorem C8_dump_format :
    (∀ zf : List ArchiveEntry, (GetFileNames zf).Nodup →
      _DumpContents zf =
        ["    Offset\t      Comp\t    Uncomp\tName",
         "    ------\t      ----\t    ------\t----"]
        ++ zf.map (fun e => dumpLine e e.name)
        ++ ["----------", toString zf.length ++ " files total"]) ∧
    _DumpContents demoArchive2 =
      ["    Offset\t      Comp\t    Uncomp\tName",
       "    ------\t      ----\t    ------\t----",
       "        64\t        10\t        10\ta.usd",
       "       128\t         5\t         5\tb.png",
       "----------",
       "2 files total"] := by
  refine ⟨?_, by decide⟩
  intro zf hnd
  simp only [_DumpContents]
  rw [dumpRows_eq dumpLine zf hnd]
  simp [GetFileNames]

/-- Claim C8 witness: the general table shape instantiated at the
concrete two-entry archive. -/
theorem C8_dump_format_witness :
    _DumpContents demoArchive2 =
      ["    Offset\t      Comp\t    Uncomp\tName",
       "    ------\t      ----\t    ------\t----"]
      ++ demoArchive2.map (fun e => dumpLine e e.name)
      ++ ["----------", toString demoArchive2.length ++ " files total"] :=
  C8_dump_format.1 demoArchive2 (by decide)

/-- Claim C9: a target archive name that does not end in ".usdz" gets the
suffix appended before any operation, a name already ending in ".usdz" is
used unchanged, and both the creation and the listing/dumping sections of
`main` act on that adjusted path. -/
theorem C9_usdz_extension (fs : FS) (checker : String → Bool)
    (storage : String → Option FileContent) (fuel : Nat) (args : Args) :
    (strEndsWith args.usdzFile ".usdz" = false →
      (mainRun fs checker storage fuel args).usdzFile =
        args.usdzFile ++ ".usdz") ∧
    (strEndsWith args.usdzFile ".usdz" = true →
      (mainRun fs checker storage fuel args).usdzFile = args.usdzFile) ∧
    (mainRun fs checker storage fuel args).pkg =
      (if 0 < args.inputFiles.length then
        some (_CreateUsdzPackage fs checker fuel
          (mainRun fs checker storage fuel args).usdzFile args.inputFiles
          args.recurse args.checkCompliance false)
      else none) ∧
    (mainRun fs checker storage fuel args).inspect =
      listDumpSection storage (mainRun fs checker storage fuel args).usdzFile
        args.listContents args.dumpContents := by
  refine ⟨?_, ?_, rfl, rfl⟩
  · intro h
    simp [mainRun, h]
  · intro h
    simp [mainRun, h]

/-- Claim C9 witness: the extension fix at a name without the suffix and
at a name with it. -/
theorem C9_usdz_extension_witness :
    (mainRun c1FS (fun _ => true) (fun _ => none) 1
        { usdzFile := "pkg", inputFiles := [], recurse := false,
          checkCompliance := false, listContents := none,
          dumpContents := none }).usdzFile = "pkg" ++ ".usdz" ∧
    (mainRun c1FS (fun _ => true) (fun _ => none) 1
        { usdzFile := "pkg.usdz", inputFiles := [], recurse := false,
          checkCompliance := false, listContents := none,
          dumpContents := none }).usdzFile = "pkg.usdz" :=
  ⟨(C9_usdz_extension c1FS (fun _ => true) (fun _ => none) 1
      { usdzFile := "pkg", inputFiles := [], recurse := false,
        checkCompliance := false, listContents := none,
        dumpContents := none }).1 (by decide),
   (C9_usdz_extension c1FS (fun _ => true) (fun _ => none) 1
      { usdzFile := "pkg.usdz", inputFiles := [], recurse := false,
        checkCompliance := false, listContents := none,
        dumpContents := none }).2.1 (by decide)⟩

/-- Claim C10: in input-files mode with compliance checking requested,
only the first file of the expanded list is handed to the compliance
checker as the root layer — the result never depends on the checker's
verdict at any other path — and with an empty expanded list (or no
compliance request) the checker is not consulted at all. -/
theorem C10_compliance_root_only (fs : FS) (checker : String → Bool)
    (fuel : Nat) (usdzFile : String) (filesToAdd : List String)
    (recurse cc vb : Bool) (fileList errs0 : List String)
    (hExp : expandLoop fs recurse fuel filesToAdd [] [] =
      some (fileList, errs0)) :
    (∀ r, _CreateUsdzPackage fs checker fuel usdzFile filesToAdd
        recurse cc vb = some r →
      r.checkedPaths =
        if cc && decide (0 < fileList.length) then [fileList.headD ""]
        else []) ∧
    (∀ checker2 : String → Bool, cc = true → fileList ≠ [] →
      checker (fileList.headD "") = checker2 (fileList.headD "") →
      _CreateUsdzPackage fs checker fuel usdzFile filesToAdd recurse cc vb =
        _CreateUsdzPackage fs checker2 fuel usdzFile filesToAdd
          recurse cc vb) ∧
    (∀ checker2 : String → Bool, cc = false ∨ fileList = [] →
      _CreateUsdzPackage fs checker fuel usdzFile filesToAdd recurse cc vb =
        _CreateUsdzPackage fs checker2 fuel usdzFile filesToAdd
          recurse cc vb) := by
  refine ⟨?_, ?_, ?_⟩
  · intro r hr
    simp only [_CreateUsdzPackage, hExp] at hr
    split at hr
    · injection hr with h2
      subst h2
      rfl
    · cases hAdd : addFilesLoop fs { bytesWritten := 0, entries := [] }
          fileList with
      | mk res errsA =>
        rw [hAdd] at hr
        cases res with
        | ok st =>
          injection hr with h2
          subst h2
          rfl
        | error g =>
          injection hr with h2
          subst h2
          rfl
  · intro checker2 hcc hne hagree
    simp only [_CreateUsdzPackage, hExp, hagree]
  · intro checker2 h
    rcases h with hc | hc
    · simp only [_CreateUsdzPackage, hExp, hc]
      simp
    · subst hc
      simp only [_CreateUsdzPackage, hExp]
      simp

/-- Claim C10 witness: with one input file, the checked path is exactly
the head; two checkers agreeing on the head give identical results even
though they differ elsewhere; and with compliance off the checker is
irrelevant. -/
theorem C10_compliance_root_only_witness :
    ((PkgResult.mk (some false) true (some []) [] ["a.usd"]).checkedPaths =
      if true && decide (0 < (["a.usd"] : List String).length) then
        [(["a.usd"] : List String).headD ""]
      else []) ∧
    _CreateUsdzPackage c1FS (fun _ => true) 1 "pkg.usdz" ["a.usd"]
        false true false =
      _CreateUsdzPackage c1FS (fun s => s == "a.usd") 1 "pkg.usdz"
        ["a.usd"] false true false ∧
    _CreateUsdzPackage c1FS (fun _ => true) 1 "pkg.usdz" ["a.usd"]
        false false false =
      _CreateUsdzPackage c1FS (fun _ => false) 1 "pkg.usdz" ["a.usd"]
        false false false :=
  ⟨(C10_compliance_root_only c1FS (fun _ => false) 1 "pkg.usdz" ["a.usd"]
      false true false ["a.usd"] [] rfl).1
      (PkgResult.mk (some false) true (some []) [] ["a.usd"]) (by decide),
   (C10_compliance_root_only c1FS (fun _ => true) 1 "pkg.usdz" ["a.usd"]
      false true false ["a.usd"] [] rfl).2.1 (fun s => s == "a.usd")
      rfl (by decide) (by decide),
   (C10_compliance_root_only c1FS (fun _ => true) 1 "pkg.usdz" ["a.usd"]
      false false false ["a.usd"] [] rfl).2.2 (fun _ => false)
      (Or.inl rfl)⟩

end Usdzip
